import Mathlib

/-!
Shallow embedding of the GeoHash trie service from `tire.go` / `types.go`.

Modelling conventions:
* Go strings are `List Char` (one `Char` per byte; all relevant bytes are ASCII).
* Go `float64` coordinates are `ℚ`.  Every interval bound produced by up to 20
  halvings of `[-180,180]` or `[-90,90]` is a dyadic rational that binary64
  represents exactly, so `<` on the embedded rationals agrees with the Go
  comparison on the corresponding doubles.
* Go `int` / `int64` are `Int` (the values occurring here are tiny, far from
  any overflow boundary).
* A Go runtime panic (out-of-range index, nil dereference, explicit `panic`)
  is `Except.error (pz : GoPanic)`; an operation that returns normally is
  `Except.ok` of its Go result tuple, with the Go `error` component as
  `Option GoErr` (`none` = nil).
* The `sync.RWMutex` is irrelevant to the sequential semantics and is dropped;
  a `TireTreeGeoService` value is just its root `geoTireNode`.
-/

/-- Go runtime panics that the embedded code can raise. -/
inductive GoPanic : Type where
  | indexOutOfRange : GoPanic
  | nilPointer : GoPanic
  | notImplemented : GoPanic

/-- Go `error` values produced by the package: `ErrInvalidHash`, plus the
error returned by `strconv.ParseInt` on a malformed numeral. -/
inductive GoErr : Type where
  | invalidHash : GoErr
  | parseError : GoErr

/-- Go array/slice/string read `xs[i]`: panics unless `0 ≤ i < len(xs)`. -/
def goIndex {α : Type} (xs : List α) (i : Int) : Except GoPanic α :=
  if h : 0 ≤ i ∧ i.toNat < xs.length then .ok (xs.get ⟨i.toNat, h.2⟩)
  else .error .indexOutOfRange

/-- Go array write `xs[i] = a`: panics unless `0 ≤ i < len(xs)`. -/
def goSet {α : Type} (xs : List α) (i : Int) (a : α) : Except GoPanic (List α) :=
  if 0 ≤ i ∧ i.toNat < xs.length then .ok (xs.set i.toNat a)
  else .error .indexOutOfRange

/-- Go arithmetic right shift by one on a signed `int` (`i >> 1`), which is
floor division by two; in particular `(-1) >> 1 = -1`. -/
def goShr1 (i : Int) : Int := Int.fdiv i 2

/-- The `Base32` alphabet table of `tire.go` (uppercase, without A, I, L, O). -/
def Base32 : List Char :=
  ['0', '1', '2', '3', '4', '5', '6', '7', '8', '9',
   'B', 'C', 'D', 'E', 'F', 'G', 'H', 'J', 'K', 'M', 'N', 'P', 'Q',
   'R', 'S', 'T', 'U', 'V', 'W', 'X', 'Y', 'Z']

/-- Embeds `base32ToIndex` from `tire.go`, byte range tests and offsets included
verbatim: `'0'..'9' ↦ b-'0'`, `'B'..'H' ↦ b-'B'+26`, `'J'..'K' ↦ b-'J'+33`,
`'M'..'N' ↦ b-'J'+35`, `'P'..'Z' ↦ b-'J'+37`, everything else `↦ -1`. -/
def base32ToIndex (bits : Char) : Int :=
  if '0' ≤ bits ∧ bits ≤ '9' then (bits.toNat : Int) - ('0'.toNat : Int)
  else if 'B' ≤ bits ∧ bits ≤ 'H' then (bits.toNat : Int) - ('B'.toNat : Int) + 26
  else if 'J' ≤ bits ∧ bits ≤ 'K' then (bits.toNat : Int) - ('J'.toNat : Int) + 33
  else if 'M' ≤ bits ∧ bits ≤ 'N' then (bits.toNat : Int) - ('J'.toNat : Int) + 35
  else if 'P' ≤ bits ∧ bits ≤ 'Z' then (bits.toNat : Int) - ('J'.toNat : Int) + 37
  else -1

/-- Embeds `getBinaryBits` from `tire.go`: append `'0'` (and shrink the upper
bound) when `val < mid`, else `'1'` (and raise the lower bound), recursing
until the builder holds at least 20 characters.  The length check happens
after the write, exactly as in the source. -/
def getBinaryBits (bits : List Char) (val start end' : ℚ) : List Char :=
  let mid := (start + end') / 2
  if val < mid then
    let bits' := bits ++ ['0']
    if bits'.length ≥ 20 then bits' else getBinaryBits bits' val start mid
  else
    let bits' := bits ++ ['1']
    if bits'.length ≥ 20 then bits' else getBinaryBits bits' val mid end'
termination_by 20 - bits.length
decreasing_by
  all_goals unfold bits' at *
  all_goals simp_all [List.length_append]
  all_goals omega

/-- Embeds `strconv.ParseInt(s, 2, 64)` on the digit strings built by
`GeoHash`: fails on an empty string or on any character other than `'0'`/`'1'`,
and on a value outside the signed 64-bit range. -/
def parseBinCore : List Char → Int → Option Int
  | [], acc => some acc
  | c :: rest, acc =>
      if c = '0' then parseBinCore rest (acc * 2)
      else if c = '1' then parseBinCore rest (acc * 2 + 1)
      else none

/-- Wrapper for `parseBinCore` adding the empty-string and 64-bit range
checks of `strconv.ParseInt`. -/
def parseBinInt (s : List Char) : Except GoErr Int :=
  if s.isEmpty then .error .parseError
  else
    match parseBinCore s 0 with
    | none => .error .parseError
    | some v => if v < 2 ^ 63 then .ok v else .error .parseError

/-- The Go `Points` struct (`types.go`). -/
structure Points : Type where
  Longitude : ℚ
  Latitude : ℚ

/-- Embeds the `for i := 0; i < 40; i++` loop in `GeoHash` (`tire.go`).
State: `acc` is the `geoHash` builder, `tmp` the `fiveBitsTmp` builder, `i`
the Go loop counter; the final `Nat` counts the remaining iterations.
Each iteration performs, in source order:
`if i%1 == 1 { tmp += lngBits[(i-1)>>1] } else if i%2 == 0 { tmp += latBits[(i-1)>>1] }`,
then `if i%5 != 0 { continue }`, then parses `tmp` in base 2 (returning
`("", err)` on failure), appends `Base32[val]` and resets `tmp`. -/
def geoHashLoop (lngBits latBits : List Char) :
    List Char → List Char → Int → Nat → Except GoPanic (List Char × Option GoErr)
  | acc, _, _, 0 => .ok (acc, none)
  | acc, tmp, i, fuel + 1 =>
    let step : Except GoPanic (List Char) :=
      if i % 1 == 1 then (goIndex lngBits (goShr1 (i - 1))).map (fun c => tmp ++ [c])
      else if i % 2 == 0 then (goIndex latBits (goShr1 (i - 1))).map (fun c => tmp ++ [c])
      else .ok tmp
    match step with
    | .error pz => .error pz
    | .ok tmp' =>
      if i % 5 != 0 then geoHashLoop lngBits latBits acc tmp' (i + 1) fuel
      else
        match parseBinInt tmp' with
        | .error e => .ok ([], some e)
        | .ok val =>
          match goIndex Base32 val with
          | .error pz => .error pz
          | .ok c => geoHashLoop lngBits latBits (acc ++ [c]) [] (i + 1) fuel

/-- Embeds `GeoHash` (`tire.go`): compute the 20 longitude bits over
`[-180,180]` and the 20 latitude bits over `[-90,90]`, then run the
40-iteration interleaving loop. -/
def geoHash (points : Points) : Except GoPanic (List Char × Option GoErr) :=
  let lngBits := getBinaryBits [] points.Longitude (-180) 180
  let latBits := getBinaryBits [] points.Latitude (-90) 90
  geoHashLoop lngBits latBits [] [] 0 40

/-- The Go `GeoEntry` struct (`tire.go`): its field `Points`, a
`map[string][]Points` (modelled as an association list in insertion order,
which is all the code observes of it — the field is renamed `points` here
only because the name would shadow the `Points` type), and the never-written
`Hash` field. -/
structure GeoEntry : Type where
  points : List (List Char × List Points)
  Hash : List Char

/-- Embeds `GeoEntry.add`: `g.Points[hash] = append(g.Points[hash], p)`
(a nil map behaves as empty and is allocated on first write). -/
def GeoEntry.add (g : GeoEntry) (p : Points) (hash : List Char) : GeoEntry :=
  if g.points.any (fun kv => kv.1 == hash) then
    { g with points := g.points.map (fun kv => if kv.1 == hash then (kv.1, kv.2 ++ [p]) else kv) }
  else
    { g with points := g.points ++ [(hash, [p])] }

/-- Embeds `GeoEntry.get`: lookup returning the nil slice (here `[]`) when the
map is nil or the key is absent. -/
def GeoEntry.get (g : GeoEntry) (hash : List Char) : List Points :=
  match g.points.find? (fun kv => kv.1 == hash) with
  | some kv => kv.2
  | none => []

/-- The Go `geoTireNode` struct (`tire.go`): `children [32]*geoTireNode`
(a length-32 list of optional subtrees), `passCnt int`, the `end bool` flag
(named `terminal` here because `end` is reserved in Lean), and the embedded
`GeoEntry`. -/
inductive GeoTireNode : Type where
  | mk (children : List (Option GeoTireNode)) (passCnt : Int)
      (terminal : Bool) (entry : GeoEntry) : GeoTireNode

/-- Projection: the `children` array. -/
def GeoTireNode.children : GeoTireNode → List (Option GeoTireNode)
  | .mk c _ _ _ => c

/-- Projection: the `passCnt` field. -/
def GeoTireNode.passCnt : GeoTireNode → Int
  | .mk _ n _ _ => n

/-- Projection: the `end` flag. -/
def GeoTireNode.terminal : GeoTireNode → Bool
  | .mk _ _ b _ => b

/-- Projection: the embedded `GeoEntry`. -/
def GeoTireNode.entry : GeoTireNode → GeoEntry
  | .mk _ _ _ e => e

/-- Functional update of the `children` array. -/
def GeoTireNode.withChildren : GeoTireNode → List (Option GeoTireNode) → GeoTireNode
  | .mk _ n b e, c => .mk c n b e

/-- Functional update of the `passCnt` field. -/
def GeoTireNode.withPassCnt : GeoTireNode → Int → GeoTireNode
  | .mk c _ b e, n => .mk c n b e

/-- Functional update of the `end` flag. -/
def GeoTireNode.withTerminal : GeoTireNode → Bool → GeoTireNode
  | .mk c n _ e, b => .mk c n b e

/-- Functional update of the embedded `GeoEntry`. -/
def GeoTireNode.withEntry : GeoTireNode → GeoEntry → GeoTireNode
  | .mk c n b _, e => .mk c n b e

/-- The Go zero value `&geoTireNode{}`: all 32 children nil, `passCnt` 0,
`end` false, nil map and empty `Hash`.  `NewTireTreeGeoService` makes this
the root, so it is also the empty service. -/
def emptyNode : GeoTireNode :=
  .mk (List.replicate 32 none) 0 false ⟨[], []⟩

/-- Embeds the method `get` of `TireTreeGeoService` (`tire.go`): walk the
trie along the decoded symbols; return `(nil, ErrInvalidHash)` when a symbol
decodes to `-1` or the child slot is nil (in source order, so an index ≥ 32
panics on the array read before the nil test); the empty string resolves to
the node itself. -/
def getNode (move : GeoTireNode) : List Char → Except GoPanic (Option GeoTireNode × Option GoErr)
  | [] => .ok (some move, none)
  | c :: rest =>
    let index := base32ToIndex c
    if index == -1 then .ok (none, some .invalidHash)
    else
      match goIndex move.children index with
      | .error pz => .error pz
      | .ok none => .ok (none, some .invalidHash)
      | .ok (some child) => getNode child rest

mutual

/-- Embeds the method `dfs` of `geoTireNode` (`tire.go`): collect this node's
entry when its `end` flag is set, then the entries of the children in index
order 0..31, skipping nil slots.  The Go error return is always nil (the only
error path re-raises a child's error, and no base case produces one), so the
result is just the entry list. -/
def dfs : GeoTireNode → List GeoEntry
  | .mk ch _ b e => (if b then [e] else []) ++ dfsChildren ch

/-- Helper for `dfs`: the `for i := 0; i < len(g.children); i++` loop. -/
def dfsChildren : List (Option GeoTireNode) → List GeoEntry
  | [] => []
  | none :: rest => dfsChildren rest
  | some child :: rest => dfs child ++ dfsChildren rest

end

/-- Embeds the deletion loop of `GeoDel` (`tire.go`), which runs after the
target was found: at each symbol, decrement `move.children[index].passCnt`
(a nil dereference if the slot is empty — unreachable after a successful
`get`); when the count hits zero, detach the child and stop; after the last
symbol, clear the final node's `end` flag. -/
def delWalk (move : GeoTireNode) : List Char → Except GoPanic GeoTireNode
  | [] => .ok (move.withTerminal false)
  | c :: rest =>
    let index := base32ToIndex c
    match goIndex move.children index with
    | .error pz => .error pz
    | .ok none => .error .nilPointer
    | .ok (some child) =>
      let child := child.withPassCnt (child.passCnt - 1)
      if child.passCnt == 0 then
        match goSet move.children index none with
        | .error pz => .error pz
        | .ok cs => .ok (move.withChildren cs)
      else
        match delWalk child rest with
        | .error pz => .error pz
        | .ok child' =>
          match goSet move.children index (some child') with
          | .error pz => .error pz
          | .ok cs => .ok (move.withChildren cs)

/-- Embeds `GeoDel` (`tire.go`): `get` the node; propagate its error, fail
with `ErrInvalidHash` when the node is missing or not terminal, otherwise run
the deletion walk from the root.  Results are `(new root, bool, error)`. -/
def geoDel (t : GeoTireNode) (hash : List Char) : Except GoPanic (GeoTireNode × Bool × Option GoErr) :=
  match getNode t hash with
  | .error pz => .error pz
  | .ok (target, err) =>
    match err with
    | some e => .ok (t, false, some e)
    | none =>
      match target with
      | none => .ok (t, false, some .invalidHash)
      | some n =>
        if n.terminal then
          match delWalk t hash with
          | .error pz => .error pz
          | .ok t' => .ok (t', true, none)
        else .ok (t, false, some .invalidHash)

/-- Embeds `GeoPosition` (`tire.go`): `get` the node; propagate its error;
return the empty slice when the node is missing or not terminal; otherwise
return the entry's points for this hash. -/
def geoPosition (t : GeoTireNode) (hash : List Char) : Except GoPanic (List Points × Option GoErr) :=
  match getNode t hash with
  | .error pz => .error pz
  | .ok (target, err) =>
    match err with
    | some e => .ok ([], some e)
    | none =>
      match target with
      | none => .ok ([], none)
      | some n => if n.terminal then .ok (n.entry.get hash, none) else .ok ([], none)

/-- Go's `move.children[index]` nil test plus `&geoTireNode{}` allocation in
the insertion loop of `GeoAdd`. -/
def childOrNew : Option GeoTireNode → GeoTireNode
  | none => emptyNode
  | some ch => ch

/-- Embeds the insertion loop of `GeoAdd` (`tire.go`): at each symbol,
allocate the child slot if nil, increment its `passCnt`, and descend; after
the last symbol set the `end` flag and add the point to the entry.  The loop
indexes `move.children[index]` without a `-1` guard, so an unmapped symbol
panics. -/
def insertWalk (fullHash : List Char) (p : Points) :
    GeoTireNode → List Char → Except GoPanic GeoTireNode
  | move, [] => .ok ((move.withTerminal true).withEntry (move.entry.add p fullHash))
  | move, c :: rest =>
    let index := base32ToIndex c
    match goIndex move.children index with
    | .error pz => .error pz
    | .ok childOpt =>
      let child := (childOrNew childOpt).withPassCnt ((childOrNew childOpt).passCnt + 1)
      match insertWalk fullHash p child rest with
      | .error pz => .error pz
      | .ok child' =>
        match goSet move.children index (some child') with
        | .error pz => .error pz
        | .ok cs => .ok (move.withChildren cs)

/-- Functional rendering of the in-place mutation
`target.GeoEntry.add(points, geoHash)` in the already-stored branch of
`GeoAdd`: rewrite the entry of the node at the end of the path.  The branch
is only taken when `get` has just resolved the full path, so the traversal
cannot fail; a missing child leaves the tree unchanged (unreachable). -/
def addEntryAt (p : Points) (fullHash : List Char) : GeoTireNode → List Char → GeoTireNode
  | move, [] => move.withEntry (move.entry.add p fullHash)
  | move, c :: rest =>
    let index := base32ToIndex c
    match goIndex move.children index with
    | .error _ => move
    | .ok none => move
    | .ok (some child) =>
      match goSet move.children index (some (addEntryAt p fullHash child rest)) with
      | .error _ => move
      | .ok cs => move.withChildren cs

/-- Embeds the body of `GeoAdd` after the hash has been computed (`tire.go`
lines 132–153): probe the path with `get`; if a terminal node exists, append
the point to its entry and return `(true, err)`; otherwise run the insertion
loop and return `(true, err)` — in both branches `err` is whatever the probe
returned, so a fresh insertion propagates `ErrInvalidHash`. -/
def geoAddHash (t : GeoTireNode) (points : Points) (code : List Char) :
    Except GoPanic (GeoTireNode × Bool × Option GoErr) :=
  match getNode t code with
  | .error pz => .error pz
  | .ok (target, err) =>
    let stored := match target with | some n => n.terminal | none => false
    if stored then .ok (addEntryAt points code t code, true, err)
    else
      match insertWalk code points t code with
      | .error pz => .error pz
      | .ok t' => .ok (t', true, err)

/-- Embeds `GeoAdd` (`tire.go`): compute the hash first (propagating its
panic or error), then run the post-hash insertion body. -/
def geoAdd (t : GeoTireNode) (points : Points) :
    Except GoPanic (GeoTireNode × Bool × Option GoErr) :=
  match geoHash points with
  | .error pz => .error pz
  | .ok (_, some e) => .ok (t, false, some e)
  | .ok (code, none) => geoAddHash t points code

/-- Embeds `FindByPrefix` (`tire.go`): `get` the node for the given string;
when `get` errors or yields nil, return the empty slice together with `get`'s
error; otherwise run `dfs` from that node. -/
def findByPfx (t : GeoTireNode) (pre : List Char) :
    Except GoPanic (List GeoEntry × Option GoErr) :=
  match getNode t pre with
  | .error pz => .error pz
  | .ok (target, err) =>
    match target with
    | none => .ok ([], err)
    | some n =>
      match err with
      | some e => .ok ([], some e)
      | none => .ok (dfs n, none)

/-- Embeds `GeoDistance` (`tire.go`): the body is exactly
`panic("implement me")`. -/
def geoDistance (_p1 _p2 : Points) : Except GoPanic (Option GoErr × ℚ) :=
  .error .notImplemented

/-- Structural well-formedness of an embedded node: every transitively
reachable `children` list has length 32, as the Go array type
`[32]*geoTireNode` guarantees by construction.  The embedding needs it as an
explicit hypothesis only because Lean lists are not length-indexed. -/
inductive WF : GeoTireNode → Prop where
  | mk : ∀ (ch : List (Option GeoTireNode)) (pc : Int) (b : Bool) (e : GeoEntry),
      ch.length = 32 → (∀ n, some n ∈ ch → WF n) → WF (.mk ch pc b e)

theorem WF.children_length {t : GeoTireNode} (h : WF t) : t.children.length = 32 := by
  cases h with
  | mk ch pc b e hlen hch => simpa [GeoTireNode.children] using hlen

theorem WF.child {t n : GeoTireNode} (h : WF t) (hm : some n ∈ t.children) : WF n := by
  cases h with
  | mk ch pc b e hlen hch => exact hch n (by simpa [GeoTireNode.children] using hm)

theorem wf_withPassCnt {t : GeoTireNode} (h : WF t) (k : Int) : WF (t.withPassCnt k) := by
  cases h with
  | mk ch pc b e hlen hch => exact WF.mk ch k b e hlen hch

theorem wf_emptyNode : WF emptyNode :=
  WF.mk (List.replicate 32 none) 0 false ⟨[], []⟩ (by simp)
    (fun n hn => absurd (List.eq_of_mem_replicate hn) (by simp))

theorem wf_childOrNew {t : GeoTireNode} (h : WF t) {o : Option GeoTireNode}
    (hm : o ∈ t.children) : WF (childOrNew o) := by
  cases o with
  | none => exact wf_emptyNode
  | some n => exact h.child hm

theorem goIndex_ok {α : Type} (xs : List α) (i : Int) (h0 : 0 ≤ i)
    (h1 : i.toNat < xs.length) : goIndex xs i = .ok (xs.get ⟨i.toNat, h1⟩) := by
  simp [goIndex, h0, h1]

theorem goSet_ok {α : Type} (xs : List α) (i : Int) (a : α) (h0 : 0 ≤ i)
    (h1 : i.toNat < xs.length) : goSet xs i a = .ok (xs.set i.toNat a) := by
  simp [goSet, h0, h1]

/-- The insertion loop of `GeoAdd` cannot panic and returns some updated root
whenever the tree is well-formed and every symbol of the path decodes to an
in-bounds child index. -/
theorem insertWalk_total (fullHash : List Char) (p : Points) :
    ∀ (h : List Char) (t : GeoTireNode), WF t →
      (∀ c ∈ h, 0 ≤ base32ToIndex c ∧ base32ToIndex c < 32) →
      ∃ t', insertWalk fullHash p t h = Except.ok t' := by
  intro h
  induction h with
  | nil => exact fun t _ _ => ⟨_, rfl⟩
  | cons c rest ih =>
    intro t hwf hvalid
    obtain ⟨h0, h1⟩ := hvalid c (List.mem_cons_self c rest)
    have hlt : (base32ToIndex c).toNat < t.children.length := by
      rw [hwf.children_length]; omega
    have hmem : t.children.get ⟨(base32ToIndex c).toNat, hlt⟩ ∈ t.children :=
      List.get_mem _ _ _
    obtain ⟨t', ht'⟩ := ih
      ((childOrNew (t.children.get ⟨(base32ToIndex c).toNat, hlt⟩)).withPassCnt
        ((childOrNew (t.children.get ⟨(base32ToIndex c).toNat, hlt⟩)).passCnt + 1))
      (wf_withPassCnt (wf_childOrNew hwf hmem) _)
      (fun d hd => hvalid d (List.mem_cons_of_mem c hd))
    refine ⟨t.withChildren (t.children.set (base32ToIndex c).toNat (some t')), ?_⟩
    simp only [insertWalk, goIndex_ok _ _ h0 hlt, ht', goSet_ok _ _ _ h0 hlt]

/-- C1: the symbol-to-index decoder is not the inverse of the encode table.
The table places `'B'` at position 10, but `base32ToIndex 'B' = 26`; worse,
`'H'` (table position 16) decodes to 32, which is not even a legal child
index of the 32-slot array.  Letters decode to 26..53 instead of 10..31. -/
theorem base32ToIndex_disagrees_with_table :
    Base32.getD 10 '0' = 'B' ∧ base32ToIndex 'B' ≠ 10 ∧ base32ToIndex 'B' = 26 ∧
    Base32.getD 16 '0' = 'H' ∧ base32ToIndex 'H' = 32 ∧
    Base32.getD 31 '0' = 'Z' ∧ base32ToIndex 'Z' = 53 := by
  decide

/-- C2: `GeoHash` never produces the interleaved code; at the very first loop
iteration (`i = 0`, an in-range point such as the origin) the dead branch
`i%1 == 1` skips the longitude bits and the `i%2 == 0` branch reads
`latBits[(0-1)>>1] = latBits[-1]`, an out-of-range index panic. -/
theorem geoHash_panics_on_in_range_point :
    geoHash ⟨0, 0⟩ = .error .indexOutOfRange := rfl

/-- C3: the public operations are not total: `GeoDistance` is
`panic("implement me")`, `GeoHash` panics on every point via `latBits[-1]`,
and `GeoDel` (through `get`) panics on the valid alphabet symbol `'H'`, whose
decoded index 32 overruns the children array. -/
theorem public_ops_panic :
    geoDistance ⟨0, 0⟩ ⟨3, 4⟩ = .error .notImplemented ∧
    geoHash ⟨7, 8⟩ = .error .indexOutOfRange ∧
    geoDel emptyNode ['H'] = .error .indexOutOfRange :=
  ⟨rfl, rfl, rfl⟩

/-- C4: the insert/lookup round trip can never even start: `GeoAdd` calls
`GeoHash` first and `GeoHash` panics on every point, so no `GeoAdd` ever
succeeds (shown here on the empty service at the in-range point (1,1)). -/
theorem geoAdd_panics_before_lookup :
    geoAdd emptyNode ⟨1, 1⟩ = .error .indexOutOfRange := rfl

/-- C5: `GeoDel` does not fail with `InvalidHash` on every non-existent path:
for the valid alphabet symbol `'Z'` the decoder yields index 53 and the
existence probe panics on `children[53]` instead of returning the error. -/
theorem geoDel_panics_on_missing_path :
    geoDel emptyNode ['Z'] = .error .indexOutOfRange := rfl

/-- C6: no `GeoAdd` ever maintains (or exercises) the passCount invariant,
because every `GeoAdd` panics inside `GeoHash` before the trie is touched:
no path is ever created and no `passCnt` is ever incremented for any code. -/
theorem geoAdd_never_reaches_trie (t : GeoTireNode) (p : Points) :
    geoAdd t p = .error .indexOutOfRange := rfl

/-- Witness for `geoAdd_never_reaches_trie` at a concrete trie and point. -/
theorem geoAdd_never_reaches_trie_w :
    geoAdd emptyNode ⟨2, 2⟩ = .error .indexOutOfRange :=
  geoAdd_never_reaches_trie emptyNode ⟨2, 2⟩

/-- C7: `GeoHash` contains no range check and no `OutOfRange` error exists in
the package; on the out-of-range point (200, 0) it panics with the same
out-of-range string index as on any other input instead of returning a typed
error. -/
theorem geoHash_no_out_of_range_check :
    geoHash ⟨200, 0⟩ = .error .indexOutOfRange := rfl

/-- C8: `FindByPrefix` misbehaves on valid-symbol prefixes with missing
paths: `"Z"` panics (decoded index 53 overruns the children array), and
`"0"` returns `ErrInvalidHash` together with the empty result instead of the
claimed error-free empty result. -/
theorem findByPfx_error_behavior :
    findByPfx emptyNode ['Z'] = .error .indexOutOfRange ∧
    findByPfx emptyNode ['0'] = .ok ([], some .invalidHash) :=
  ⟨rfl, rfl⟩

/-- C9: on San Francisco (longitude -122.4194, latitude 37.7749) `GeoHash`
panics via `latBits[-1]` like on every other point, so it cannot return
`"9q8yyk8y"` (whose lowercase letters are not even in the uppercase table). -/
theorem geoHash_sanFrancisco_panics :
    geoHash ⟨-122.4194, 37.7749⟩ = .error .indexOutOfRange := rfl

/-- C10 counterexample: as stated the claim is false because `GeoAdd` never
returns at all: on the empty index and the in-range point (3,3) it panics
inside `GeoHash`, so no first insertion ever yields `(true, non-nil error)`. -/
theorem geoAdd_first_insert_panics :
    geoAdd emptyNode ⟨3, 3⟩ = .error .indexOutOfRange := rfl

/-- C10 (amended): in the post-hash body of `GeoAdd`, for a precomputed code
whose symbols all decode to in-bounds child indices and whose path is not
fully present, the pre-insertion existence probe's `ErrInvalidHash` is
propagated alongside `true` on success, so a caller cannot detect success by
a nil error. -/
theorem geoAddHash_propagates_probe_error (t : GeoTireNode) (p : Points) (code : List Char)
    (hwf : WF t)
    (hvalid : ∀ c ∈ code, 0 ≤ base32ToIndex c ∧ base32ToIndex c < 32)
    (hmiss : getNode t code = .ok (none, some .invalidHash)) :
    ∃ t', geoAddHash t p code = .ok (t', true, some .invalidHash) := by
  obtain ⟨t', ht'⟩ := insertWalk_total code p code t hwf hvalid
  exact ⟨t', by simp [geoAddHash, hmiss, ht']⟩

/-- Witness for `geoAddHash_propagates_probe_error`: the first insertion of
the one-symbol code `"0"` into the empty service returns `true` together
with `ErrInvalidHash`. -/
theorem geoAddHash_propagates_probe_error_w :
    ∃ t', geoAddHash emptyNode ⟨5, 5⟩ ['0'] = .ok (t', true, some .invalidHash) :=
  geoAddHash_propagates_probe_error emptyNode ⟨5, 5⟩ ['0'] wf_emptyNode (by decide) rfl
